import Mathlib

/-!
Shallow embedding of the foreign-field arithmetic engine
(src/lib/gadgets/foreign-field.ts) and verification of the frozen claims.

Conventions of the embedding:
* TypeScript bigints are modelled as `Int` (arbitrary precision, signed).
* The TS arithmetic right shift `x >> n` on bigints is floor division,
  modelled by `Int.fdiv x (2 ^ n)`.
* The TS mask `x & (2^n - 1)` on two-complement bigints is the
  non-negative residue, modelled by `Int.emod x (2 ^ n)` (the `%` of `Int`).
* The limb-size constants of the range-check module are instantiated at
  their documented values L = 88, L2 = 176, L3 = 264; the corresponding
  powers of two appear as literals `2 ^ 88`, `2 ^ 176`, `2 ^ 264`.
* A native field element is a concrete value (prover view) together with
  its constant/variable tag; emitted gates, range checks, witness blocks
  and assertions are recorded in an event trace.  A thrown `assert` is an
  `Except.error`, which carries no trace: nothing was emitted.
-/

set_option maxRecDepth 100000

/-- Triple of bigints, the limb form of a foreign-field element value
(source type `bigint3`). -/
abbrev bigint3 := Int × Int × Int

/-- Models the TS bigint arithmetic shift `x >> n` (floor division). -/
def shr (x : Int) (n : Nat) : Int := Int.fdiv x (2 ^ n)

/-- Models the TS bigint mask `x & (2^n - 1)` (non-negative residue mod `2^n`). -/
def bandMask (x : Int) (n : Nat) : Int := x % 2 ^ n

/-- Modelled from the spec: the native field modulus of the external native
field type (the Pasta base-field prime of the surrounding proof system).
Only the fact that small quantities are unchanged by reduction modulo it is
ever used. -/
def pNative : Int := 28948022309329048855892746252171976963363056481941560715954676764349967630337

/-- Modelled from the spec: `mod` of the external finite-field module; returns
the canonical representative in `[0, f)` for a positive modulus `f`. -/
def mod' (x f : Int) : Int := x % f

/-- Modelled from the spec: the modular-inverse helper of the external
finite-field module; returns `none` exactly when `gcd(x, f) ≠ 1`, otherwise
the canonical representative of the inverse of `x` modulo `f`. -/
def modInverse (x f : Int) : Option Int :=
  if Int.gcd x f = 1 then some (Nat.gcdA (x % f).toNat f.toNat % f) else none

/-- Modelled from the spec: the bit-slicing helper of the external common
gadget module; extracts the window of length `len` starting at bit `start`. -/
def bitSlice (x : Int) (start len : Nat) : Int := bandMask (shr x start) len

/-- Model of a native field element in prover context: its concrete value
(already reduced modulo the native modulus) and the constant/variable tag. -/
structure FieldVal where
  value : Int
  isConst : Bool
deriving DecidableEq, Repr

/-- Limb triple of native field elements (source type `Field3`). -/
abbrev Field3 := FieldVal × FieldVal × FieldVal

/-- Models `new Field(x)`: a compile-time constant. -/
def FieldVal.ofBigint (x : Int) : FieldVal := ⟨x % pNative, true⟩

/-- Models native field addition. -/
def FieldVal.add (x y : FieldVal) : FieldVal :=
  ⟨(x.value + y.value) % pNative, x.isConst && y.isConst⟩

/-- Models native field multiplication by a constant bigint. -/
def FieldVal.mulc (x : FieldVal) (c : Int) : FieldVal :=
  ⟨(x.value * (c % pNative)) % pNative, x.isConst⟩

/-- Models `x.equals(c)` against a constant, in the prover view: the concrete
boolean value of the comparison. -/
def FieldVal.equalsConst (x : FieldVal) (c : Int) : Bool :=
  x.value == c % pNative

/-- Models a circuit variable freshly created from a witness value. -/
def mkVar (v : Int) : FieldVal := ⟨v % pNative, false⟩

/-- Creates a variable limb triple from witnessed limb values. -/
def mkVar3 (v : bigint3) : Field3 := (mkVar v.1, mkVar v.2.1, mkVar v.2.2)

/-- Source function `bigint3(x)`: reads the concrete limb values. -/
def bigint3Of (x : Field3) : bigint3 := (x.1.value, x.2.1.value, x.2.2.value)

/-- Models `x.every((x) => x.isConstant())`. -/
def isConst3 (x : Field3) : Bool := x.1.isConst && x.2.1.isConst && x.2.2.isConst

/-- Constraint-system events emitted by the provable paths: witness blocks,
gates, range checks, and equality/boolean assertions. -/
inductive Event where
  | witness (vals : List Int)
  | zeroGate (v0 v1 v2 : Int)
  | ffAdd (left right : bigint3) (overflow carry : Int) (modulus : bigint3) (sign : Int)
  | ffMul (left right : bigint3) (remainder : Int × Int) (quotient : bigint3)
      (quotientHiBound : Int) (product1 : bigint3) (carry0 : Int)
      (carry1p carry1c : List Int) (foreignFieldModulus2 : Int)
      (negForeignFieldModulus : bigint3)
  | mrc (v0 v1 v2 : Int)
  | cmrc (v01 v2 : Int)
  | assertEq (a b : Int)
  | assertBoolFalse (b : Bool)
deriving DecidableEq, Repr

/-- Source `collapse`: reconstructs the integer from a limb triple,
`x0 + (x1 << L) + (x2 << L2)`. -/
def collapse (x : bigint3) : Int := x.1 + x.2.1 * 2 ^ 88 + x.2.2 * 2 ^ 176

/-- Source `split`: `[x & lMask, (x >> L) & lMask, (x >> L2) & lMask]`. -/
def split (x : Int) : bigint3 :=
  (bandMask x 88, bandMask (shr x 88) 88, bandMask (shr x 176) 88)

/-- Source `collapse2`: reconstructs the combined low two limbs,
`x0 + (x1 << L)`. -/
def collapse2 (x0 x1 : Int) : Int := x0 + x1 * 2 ^ 88

/-- Source `split2`: `[x & lMask, (x >> L) & lMask]`. -/
def split2 (x : Int) : Int × Int := (bandMask x 88, bandMask (shr x 88) 88)

/-- Source `ForeignField.from`: limb-splits a bigint into a constant element. -/
def ffFrom (x : Int) : Field3 :=
  (FieldVal.ofBigint (split x).1, FieldVal.ofBigint (split x).2.1,
   FieldVal.ofBigint (split x).2.2)

/-- Source `ForeignField.toBigint`: collapses the concrete limb values. -/
def ffToBigint (x : Field3) : Int := collapse (bigint3Of x)

/-- Witness computation of `singleAdd` (the callback of its `exists(5)`):
raw sum, overflow indicator, combined low-limb arithmetic with carry, and the
propagated high limb.  Returns `(r0, r1, r2, overflow, carry)`. -/
def singleAddWitness (x_ y_ : bigint3) (sign f : Int) :
    Int × Int × Int × Int × Int :=
  let f_ := split f
  let r := collapse x_ + sign * collapse y_
  let overflow : Int := 0
  let overflow := if sign = 1 ∧ r ≥ f then 1 else overflow
  let overflow := if sign = -1 ∧ r < 0 then -1 else overflow
  let overflow := if f = 0 then 0 else overflow
  let r01 := collapse2 x_.1 x_.2.1 + sign * collapse2 y_.1 y_.2.1
             - overflow * collapse2 f_.1 f_.2.1
  let carry := shr r01 176
  let r01 := bandMask r01 176
  let r0 := (split2 r01).1
  let r1 := (split2 r01).2
  let r2 := x_.2.2 + sign * y_.2.2 - overflow * f_.2.2 + carry
  (r0, r1, r2, overflow, carry)

/-- Source `singleAdd`: witnesses the single signed addition step and emits
one foreign-field-add gate.  Returns the result triple and the overflow. -/
def singleAdd (x y : Field3) (sign f : Int) : (Field3 × FieldVal) × List Event :=
  let f_ := split f
  let w := singleAddWitness (bigint3Of x) (bigint3Of y) sign f
  let r0 := w.1
  let r1 := w.2.1
  let r2 := w.2.2.1
  let overflow := w.2.2.2.1
  let carry := w.2.2.2.2
  (((mkVar r0, mkVar r1, mkVar r2), mkVar overflow),
   [Event.witness [r0, r1, r2, overflow, carry],
    Event.ffAdd (bigint3Of x) (bigint3Of y) overflow carry f_ sign])

/-- Modelled from the spec: the N-ary simultaneous range-check primitive of
the external range-check module; only the emitted check is modelled, as an
event recording the three checked values. -/
def multiRangeCheck (x0 x1 x2 : FieldVal) : List Event :=
  [Event.mrc x0.value x1.value x2.value]

/-- Modelled from the spec: the compacting range-check primitive of the
external range-check module; accepts the combined low limbs and the high
limb, returns the implied limb triple, and records the check. -/
def compactMultiRangeCheck (x01 x2 : FieldVal) : Field3 × List Event :=
  ((mkVar (split2 x01.value).1, mkVar (split2 x01.value).2, x2),
   [Event.cmrc x01.value x2.value])

/-- Source `sumChain`: `x[0] + sign[0]*x[1] + ... + sign[n-1]*x[n]` modulo `f`.
Constant case computes directly; provable case chains `singleAdd` rows, parks
the result with a zero row and range-checks it. -/
def sumChain (x : List Field3) (sign : List Int) (f : Int) :
    Except String (Field3 × List Event) :=
  if x.length = sign.length + 1 then
    if x.all isConst3 then
      let xBig := x.map ffToBigint
      let sum := (sign.zip xBig.tail).foldl (fun acc sv => acc + sv.1 * sv.2) (xBig.headD 0)
      .ok (ffFrom (mod' sum f), [])
    else
      let folded := (sign.zip x.tail).foldl
        (fun acc sv =>
          let r := singleAdd acc.1 sv.2 sv.1 f
          (r.1.1, acc.2 ++ r.2))
        (x.headD (mkVar3 (0, 0, 0)), [])
      let result := folded.1
      .ok (result,
        folded.2
        ++ [Event.zeroGate (bigint3Of result).1 (bigint3Of result).2.1 (bigint3Of result).2.2]
        ++ multiRangeCheck result.1 result.2.1 result.2.2)
  else .error "inputs and operators match"

/-- Source bit-slicing of the high carry `c1` in `multiplyNoRangeCheck`:
the eleven windows `c1_00 .. c1_90`. -/
def c1Slice (c1 : Int) : List Int :=
  [bitSlice c1 0 12, bitSlice c1 12 12, bitSlice c1 24 12, bitSlice c1 36 12,
   bitSlice c1 48 12, bitSlice c1 60 12, bitSlice c1 72 12,
   bitSlice c1 84 2, bitSlice c1 86 2, bitSlice c1 88 2, bitSlice c1 90 1]

/-- The 21 witness values of `multiplyNoRangeCheck`, by name. -/
structure MulWit where
  r01 : Int
  r2 : Int
  q0 : Int
  q1 : Int
  q2 : Int
  q2Bound : Int
  p10 : Int
  p110 : Int
  p111 : Int
  c0 : Int
  c1s : List Int
deriving DecidableEq, Repr

/-- Witness computation of `multiplyNoRangeCheck` (the callback of its
`exists(21)`): quotient/remainder of `a*b` by `f`, cross-limb product terms,
the two carries, the sliced high carry, and the quotient high bound. -/
def mulWitness (a_ b_ : bigint3) (f : Int) : MulWit :=
  let f_s := split (2 ^ 264 - f)
  let a0 := a_.1
  let a1 := a_.2.1
  let a2 := a_.2.2
  let b0 := b_.1
  let b1 := b_.2.1
  let b2 := b_.2.2
  let ab := collapse a_ * collapse b_
  let q := Int.tdiv ab f
  let r := ab - q * f
  let qs := split q
  let rs := split r
  let r01 := collapse2 rs.1 rs.2.1
  let p0 := a0 * b0 + qs.1 * f_s.1
  let p1 := a0 * b1 + a1 * b0 + qs.1 * f_s.2.1 + qs.2.1 * f_s.1
  let p2 := a0 * b2 + a1 * b1 + a2 * b0 + qs.1 * f_s.2.2 + qs.2.1 * f_s.2.1 + qs.2.2 * f_s.1
  let p1s := split p1
  let p11 := collapse2 p1s.2.1 p1s.2.2
  let c0 := shr (p0 + p1s.1 * 2 ^ 88 - r01) 176
  let c1 := shr (p2 - rs.2.2 + p11 + c0) 88
  let q2Bound := qs.2.2 + (2 ^ 88 - shr f 176 - 1)
  { r01 := r01, r2 := rs.2.2, q0 := qs.1, q1 := qs.2.1, q2 := qs.2.2,
    q2Bound := q2Bound, p10 := p1s.1, p110 := p1s.2.1, p111 := p1s.2.2,
    c0 := c0, c1s := c1Slice c1 }

/-- The 21 witness values in the order of the source `exists(21)` array. -/
def mulWitnessList (w : MulWit) : List Int :=
  [w.r01, w.r2, w.q0, w.q1, w.q2, w.q2Bound, w.p10, w.p110, w.p111, w.c0] ++ w.c1s

/-- Return record of `multiplyNoRangeCheck`. -/
structure MulResult where
  r01 : FieldVal
  r2 : FieldVal
  q : Field3
  q2Bound : FieldVal

/-- Source `multiplyNoRangeCheck`: witnesses the quotient-remainder data and
emits the single foreign-field-multiply gate.  Adds no range checks. -/
def multiplyNoRangeCheck (a b : Field3) (f : Int) : MulResult × List Event :=
  let f_s := split (2 ^ 264 - f)
  let f2 := shr f 176
  let w := mulWitness (bigint3Of a) (bigint3Of b) f
  ({ r01 := mkVar w.r01, r2 := mkVar w.r2,
     q := (mkVar w.q0, mkVar w.q1, mkVar w.q2), q2Bound := mkVar w.q2Bound },
   [Event.witness (mulWitnessList w),
    Event.ffMul (bigint3Of a) (bigint3Of b) (w.r01, w.r2) (w.q0, w.q1, w.q2)
      w.q2Bound (w.p10, w.p110, w.p111) w.c0 (w.c1s.take 7) (w.c1s.drop 7)
      f2 f_s])

/-- Source `weakBound`: `x + (2^L - (f >> L2) - 1)`. -/
def weakBound (x : FieldVal) (f : Int) : FieldVal :=
  x.add (FieldVal.ofBigint (2 ^ 88 - shr f 176 - 1))

/-- Modelled from the spec: `toVar` of the external common gadget module,
wrapping a constant into a fresh circuit variable. -/
def toVarF (c : Int) : FieldVal := mkVar c

/-- Source `multiply`: precondition `f < 2^259`; constant case computes
`(a*b) mod f` directly; provable case runs the multiplication core and adds
the quotient, remainder and bound range checks. -/
def multiply (a b : Field3) (f : Int) : Except String (Field3 × List Event) :=
  if f < 2 ^ 259 then
    if isConst3 a && isConst3 b then
      .ok (ffFrom (mod' (ffToBigint a * ffToBigint b) f), [])
    else
      let m := multiplyNoRangeCheck a b f
      let res := m.1
      let cr := compactMultiRangeCheck res.r01 res.r2
      .ok (cr.1,
        m.2
        ++ multiRangeCheck res.q.1 res.q.2.1 res.q.2.2
        ++ cr.2
        ++ multiRangeCheck res.q2Bound (weakBound res.r2 f) (toVarF 0))
  else .error "Foreign modulus fits in 259 bits"

/-- Witness values chosen for the candidate inverse in the provable path of
`inverse` (the callback of its `exists(3)`): the true modular inverse when
it exists, the all-zero triple otherwise. -/
def inverseWitness (x : Field3) (f : Int) : bigint3 :=
  match modInverse (ffToBigint x) f with
  | none => ((0 : Int), (0 : Int), (0 : Int))
  | some i => split i

/-- Provable path of `inverse` (the else-branch of the source function):
witnesses the candidate inverse, runs the multiplication core, adds range
checks, and asserts the remainder equals exactly one. -/
def inverseProvable (x : Field3) (f : Int) : Field3 × List Event :=
  let xInvVals := inverseWitness x f
  let xInvF := mkVar3 xInvVals
  let m := multiplyNoRangeCheck x xInvF f
  let res := m.1
  (xInvF,
    [Event.witness [xInvVals.1, xInvVals.2.1, xInvVals.2.2]]
    ++ m.2
    ++ multiRangeCheck res.q.1 res.q.2.1 res.q.2.2
    ++ multiRangeCheck xInvF.1 xInvF.2.1 xInvF.2.2
    ++ multiRangeCheck res.q2Bound (weakBound xInvF.2.2 f) (FieldVal.ofBigint 0)
    ++ [Event.assertEq res.r01.value (1 % pNative),
        Event.assertEq res.r2.value (0 % pNative)])

/-- Source `inverse`: precondition `f < 2^259`; constant case uses the direct
modular inverse and fails when none exists; provable case witnesses a
candidate inverse (or the zero triple), runs the multiplication core, adds
range checks, and asserts the remainder equals one. -/
def inverse (x : Field3) (f : Int) : Except String (Field3 × List Event) :=
  if f < 2 ^ 259 then
    if isConst3 x then
      match modInverse (ffToBigint x) f with
      | none => .error "inverse exists"
      | some xInv => .ok (ffFrom xInv, [])
    else .ok (inverseProvable x f)
  else .error "Foreign modulus fits in 259 bits"

/-- Witness values chosen for `z` in the provable path of `divide` (the
callback of its `exists(3)`): `x * y⁻¹ mod f` when the inverse exists, the
all-zero triple otherwise. -/
def divideWitness (x y : Field3) (f : Int) : bigint3 :=
  match modInverse (ffToBigint y) f with
  | none => ((0 : Int), (0 : Int), (0 : Int))
  | some yInv => split (mod' (ffToBigint x * yInv) f)

/-- Provable path of `divide` (the else-branch of the source function):
witnesses `z`, runs the multiplication core on `(z, y)`, adds range checks,
asserts the remainder equals `x`, and unless `allowZeroOverZero` is set
asserts that `y` is neither limb representation of zero modulo `f`. -/
def divideProvable (x y : Field3) (f : Int) (allowZeroOverZero : Bool) :
    Field3 × List Event :=
  let zVals := divideWitness x y f
  let z := mkVar3 zVals
  let m := multiplyNoRangeCheck z y f
  let res := m.1
  let x01 := x.1.add (x.2.1.mulc (2 ^ 88))
  let yChecks :=
    if allowZeroOverZero then []
    else
      let y01 := y.1.add (y.2.1.mulc (2 ^ 88))
      let f_s := split f
      [Event.assertBoolFalse (y01.equalsConst 0 && y.2.2.equalsConst 0),
       Event.assertBoolFalse
         (y01.equalsConst (collapse2 f_s.1 f_s.2.1) && y.2.2.equalsConst f_s.2.2)]
  (z,
    [Event.witness [zVals.1, zVals.2.1, zVals.2.2]]
    ++ m.2
    ++ multiRangeCheck res.q.1 res.q.2.1 res.q.2.2
    ++ multiRangeCheck z.1 z.2.1 z.2.2
    ++ multiRangeCheck res.q2Bound (weakBound z.2.2 f) (FieldVal.ofBigint 0)
    ++ [Event.assertEq res.r01.value x01.value,
        Event.assertEq res.r2.value x.2.2.value]
    ++ yChecks)

/-- Source `divide`: precondition `f < 2^259`; constant case computes
`x * y⁻¹ mod f` and fails when `y` has no inverse; provable case is
`divideProvable`. -/
def divide (x y : Field3) (f : Int) (allowZeroOverZero : Bool) :
    Except String (Field3 × List Event) :=
  if f < 2 ^ 259 then
    if isConst3 x && isConst3 y then
      match modInverse (ffToBigint y) f with
      | none => .error "inverse exists"
      | some yInv => .ok (ffFrom (mod' (ffToBigint x * yInv) f), [])
    else .ok (divideProvable x y f allowZeroOverZero)
  else .error "Foreign modulus fits in 259 bits"

/-- Source `ForeignField.add`. -/
def ffAddOp (x y : Field3) (f : Int) : Except String (Field3 × List Event) :=
  sumChain [x, y] [1] f

/-- Source `ForeignField.sub`. -/
def ffSubOp (x y : Field3) (f : Int) : Except String (Field3 × List Event) :=
  sumChain [x, y] [-1] f

/-- Decodes the foreign-field value of a successful operation result. -/
def decodeOk (e : Except String (Field3 × List Event)) : Option Int :=
  match e with
  | .ok (r, _) => some (ffToBigint r)
  | .error _ => none

/-- Constant element with the given limb values (source `Field3(x)`). -/
def field3Const (v : bigint3) : Field3 :=
  (FieldVal.ofBigint v.1, FieldVal.ofBigint v.2.1, FieldVal.ofBigint v.2.2)

lemma shr_eq (x : Int) (n : Nat) : shr x n = x / 2 ^ n :=
  Int.fdiv_eq_ediv x (by positivity)

lemma emod_pNative_eq {v : Int} (h0 : 0 ≤ v) (h1 : v < 2 ^ 250) : v % pNative = v := by
  have hp : (2 : Int) ^ 250 < pNative := by norm_num [pNative]
  exact Int.emod_eq_of_lt h0 (by omega)

lemma split_bounds (x : Int) :
    0 ≤ (split x).1 ∧ (split x).1 < 2 ^ 88 ∧
    0 ≤ (split x).2.1 ∧ (split x).2.1 < 2 ^ 88 ∧
    0 ≤ (split x).2.2 ∧ (split x).2.2 < 2 ^ 88 := by
  simp only [split, bandMask, shr_eq]
  refine ⟨?_, ?_, ?_, ?_, ?_, ?_⟩ <;> omega

lemma collapse_split_eq {x : Int} (h0 : 0 ≤ x) (h1 : x < 2 ^ 264) :
    collapse (split x) = x := by
  simp only [split, collapse, bandMask, shr_eq]
  omega

lemma ffToBigint_ffFrom {v : Int} (h0 : 0 ≤ v) (h1 : v < 2 ^ 264) :
    ffToBigint (ffFrom v) = v := by
  have hb := split_bounds v
  simp only [ffToBigint, ffFrom, bigint3Of, FieldVal.ofBigint]
  rw [emod_pNative_eq hb.1 (by omega), emod_pNative_eq hb.2.2.1 (by omega),
    emod_pNative_eq hb.2.2.2.2.1 (by omega)]
  exact collapse_split_eq h0 h1

/-- C3: `split` and `collapse` are mutually inverse: `split (collapse limbs)`
returns the limbs whenever each limb is below `2^L`, and `collapse (split x)`
returns `x` whenever `0 ≤ x < 2^(3L)`. -/
theorem split_collapse_roundtrip :
    (∀ l0 l1 l2 : Int, 0 ≤ l0 → l0 < 2 ^ 88 → 0 ≤ l1 → l1 < 2 ^ 88 →
      0 ≤ l2 → l2 < 2 ^ 88 → split (collapse (l0, l1, l2)) = (l0, l1, l2))
  ∧ (∀ x : Int, 0 ≤ x → x < 2 ^ 264 → collapse (split x) = x) := by
  constructor
  · intro l0 l1 l2 h0 h0b h1 h1b h2 h2b
    simp only [split, collapse, bandMask, shr_eq, Prod.mk.injEq]
    refine ⟨?_, ?_, ?_⟩ <;> omega
  · intro x h0 h1
    exact collapse_split_eq h0 h1

/-- Witness for C3 at limbs `(1, 2, 3)` and at `x = 5`. -/
theorem split_collapse_roundtrip_w :
    split (collapse (1, 2, 3)) = (1, 2, 3) ∧ collapse (split 5) = 5 :=
  ⟨split_collapse_roundtrip.1 1 2 3 (by norm_num) (by norm_num) (by norm_num)
      (by norm_num) (by norm_num) (by norm_num),
   split_collapse_roundtrip.2 5 (by norm_num) (by norm_num)⟩

/-- C4: `weakBound x f` returns exactly `x + (2^L - (f >> L2) - 1)`; at
`x = f2` (the modulus high limb) it returns `2^L - 1`, the maximum value
passing a `< 2^L` range check, and at `x = f2 + 1` it returns `2^L`,
which fails that check. -/
theorem weakBound_spec (x : FieldVal) (f : Int) (t : Bool)
    (hx0 : 0 ≤ x.value) (hx1 : x.value < 2 ^ 88)
    (hf0 : 0 ≤ f) (hf1 : f < 2 ^ 259) :
    (weakBound x f).value = x.value + (2 ^ 88 - shr f 176 - 1)
  ∧ (weakBound ⟨shr f 176, t⟩ f).value = 2 ^ 88 - 1
  ∧ (weakBound ⟨shr f 176 + 1, t⟩ f).value = 2 ^ 88
  ∧ ((2 : Int) ^ 88 - 1 < 2 ^ 88 ∧ ¬ ((2 : Int) ^ 88 < 2 ^ 88)) := by
  refine ⟨?_, ?_, ?_, by norm_num⟩ <;>
    simp only [weakBound, FieldVal.add, FieldVal.ofBigint, shr_eq, pNative] <;> omega

/-- Witness for C4 at `x = 5` (a constant limb) and `f = 2^255 - 19`. -/
theorem weakBound_spec_w :
    (weakBound ⟨5, true⟩ (2 ^ 255 - 19)).value = 5 + (2 ^ 88 - shr (2 ^ 255 - 19) 176 - 1)
  ∧ (weakBound ⟨shr (2 ^ 255 - 19) 176, true⟩ (2 ^ 255 - 19)).value = 2 ^ 88 - 1
  ∧ (weakBound ⟨shr (2 ^ 255 - 19) 176 + 1, true⟩ (2 ^ 255 - 19)).value = 2 ^ 88
  ∧ ((2 : Int) ^ 88 - 1 < 2 ^ 88 ∧ ¬ ((2 : Int) ^ 88 < 2 ^ 88)) :=
  weakBound_spec ⟨5, true⟩ (2 ^ 255 - 19) true (by norm_num) (by norm_num)
    (by norm_num) (by norm_num)

/-- C5: in `singleAdd`, with `r = x + sign*y` over the integers, the witnessed
overflow is forced to `0` whenever `f = 0`, and otherwise is `+1` iff
`sign = +1` and `r ≥ f`, `-1` iff `sign = -1` and `r < 0`, else `0`. -/
theorem singleAdd_overflow_spec (x y : bigint3) (sign f : Int)
    (hs : sign = 1 ∨ sign = -1) :
    (f = 0 → (singleAddWitness x y sign f).2.2.2.1 = 0)
  ∧ (f ≠ 0 → (singleAddWitness x y sign f).2.2.2.1 =
      if sign = 1 ∧ f ≤ collapse x + sign * collapse y then 1
      else if sign = -1 ∧ collapse x + sign * collapse y < 0 then -1 else 0) := by
  constructor
  · intro hf
    subst hf
    rcases hs with h | h <;> subst h <;> simp [singleAddWitness]
  · intro hf
    rcases hs with h | h <;> subst h <;>
      simp only [singleAddWitness, hf, if_false, ge_iff_le, if_neg hf] <;>
      split_ifs <;> simp_all

/-- Witness for C5 at `x = (1,0,0)`, `y = (2,0,0)`, `sign = 1`, `f = 5`. -/
theorem singleAdd_overflow_spec_w :
    ((5 : Int) = 0 → (singleAddWitness (1, 0, 0) (2, 0, 0) 1 5).2.2.2.1 = 0)
  ∧ ((5 : Int) ≠ 0 → (singleAddWitness (1, 0, 0) (2, 0, 0) 1 5).2.2.2.1 =
      if (1 : Int) = 1 ∧ 5 ≤ collapse (1, 0, 0) + 1 * collapse (2, 0, 0) then 1
      else if (1 : Int) = -1 ∧ collapse (1, 0, 0) + 1 * collapse (2, 0, 0) < 0 then -1
      else 0) :=
  singleAdd_overflow_spec (1, 0, 0) (2, 0, 0) 1 5 (Or.inl rfl)

/-- Counterexample for C7: the high carry is sliced into eleven windows,
not twelve. -/
theorem c1Slice_not_twelve : ¬ ((c1Slice 0).length = 12) := by decide

/-- C7 (amended): the high carry `c1` is bit-sliced into eleven fixed-width
windows: seven 12-bit windows, then three 2-bit windows and one 1-bit window
tapering to cover the remaining high bits; for `0 ≤ c1 < 2^91` the windows
recombine to `c1`. -/
theorem c1Slice_spec (c1 : Int) (h0 : 0 ≤ c1) (h1 : c1 < 2 ^ 91) :
    (c1Slice c1).length = 11
  ∧ (∀ s ∈ (c1Slice c1).take 7, 0 ≤ s ∧ s < 2 ^ 12)
  ∧ (∀ s ∈ ((c1Slice c1).drop 7).take 3, 0 ≤ s ∧ s < 2 ^ 2)
  ∧ (∀ s ∈ (c1Slice c1).drop 10, 0 ≤ s ∧ s < 2 ^ 1)
  ∧ bitSlice c1 0 12 + bitSlice c1 12 12 * 2 ^ 12 + bitSlice c1 24 12 * 2 ^ 24
    + bitSlice c1 36 12 * 2 ^ 36 + bitSlice c1 48 12 * 2 ^ 48
    + bitSlice c1 60 12 * 2 ^ 60 + bitSlice c1 72 12 * 2 ^ 72
    + bitSlice c1 84 2 * 2 ^ 84 + bitSlice c1 86 2 * 2 ^ 86
    + bitSlice c1 88 2 * 2 ^ 88 + bitSlice c1 90 1 * 2 ^ 90 = c1 := by
  refine ⟨rfl, ?_, ?_, ?_, ?_⟩ <;>
    simp only [c1Slice, bitSlice, bandMask, shr_eq, List.take, List.drop,
      List.mem_cons, List.not_mem_nil, or_false, forall_eq_or_imp, forall_eq] <;>
    omega

/-- Witness for C7 (amended) at `c1 = 12345`. -/
theorem c1Slice_spec_w :
    (c1Slice 12345).length = 11
  ∧ (∀ s ∈ (c1Slice 12345).take 7, 0 ≤ s ∧ s < 2 ^ 12)
  ∧ (∀ s ∈ ((c1Slice 12345).drop 7).take 3, 0 ≤ s ∧ s < 2 ^ 2)
  ∧ (∀ s ∈ (c1Slice 12345).drop 10, 0 ≤ s ∧ s < 2 ^ 1)
  ∧ bitSlice 12345 0 12 + bitSlice 12345 12 12 * 2 ^ 12 + bitSlice 12345 24 12 * 2 ^ 24
    + bitSlice 12345 36 12 * 2 ^ 36 + bitSlice 12345 48 12 * 2 ^ 48
    + bitSlice 12345 60 12 * 2 ^ 60 + bitSlice 12345 72 12 * 2 ^ 72
    + bitSlice 12345 84 2 * 2 ^ 84 + bitSlice 12345 86 2 * 2 ^ 86
    + bitSlice 12345 88 2 * 2 ^ 88 + bitSlice 12345 90 1 * 2 ^ 90 = 12345 :=
  c1Slice_spec 12345 (by norm_num) (by norm_num)

/-- C1: for `0 < f < 2^259` and `0 ≤ x, y < f`, the constant path of
`multiply` returns the product of the reconstructed integers reduced modulo
`f`, limb-split, and it decodes back to `(x*y) mod f`. -/
theorem multiply_const_spec (x y f : Int)
    (hx0 : 0 ≤ x) (hx1 : x < f) (hy0 : 0 ≤ y) (hy1 : y < f)
    (hf0 : 0 < f) (hf1 : f < 2 ^ 259) :
    multiply (ffFrom x) (ffFrom y) f = .ok (ffFrom (mod' (x * y) f), [])
  ∧ ffToBigint (ffFrom (mod' (x * y) f)) = mod' (x * y) f := by
  have hxe : ffToBigint (ffFrom x) = x := ffToBigint_ffFrom hx0 (by omega)
  have hye : ffToBigint (ffFrom y) = y := ffToBigint_ffFrom hy0 (by omega)
  have hm0 : 0 ≤ mod' (x * y) f := Int.emod_nonneg _ (by omega)
  have hm1 : mod' (x * y) f < f := Int.emod_lt_of_pos _ hf0
  have hcc : (isConst3 (ffFrom x) && isConst3 (ffFrom y)) = true := rfl
  constructor
  · simp only [multiply, if_pos hf1, hcc, if_true]
    rw [hxe, hye]
  · exact ffToBigint_ffFrom hm0 (by omega)

/-- Witness for C1 at `x = 5`, `y = 7`, `f = 2^255 - 19`. -/
theorem multiply_const_spec_w :
    multiply (ffFrom 5) (ffFrom 7) (2 ^ 255 - 19)
      = .ok (ffFrom (mod' (5 * 7) (2 ^ 255 - 19)), [])
  ∧ ffToBigint (ffFrom (mod' (5 * 7) (2 ^ 255 - 19))) = mod' (5 * 7) (2 ^ 255 - 19) :=
  multiply_const_spec 5 7 (2 ^ 255 - 19) (by norm_num) (by norm_num) (by norm_num)
    (by norm_num) (by norm_num) (by norm_num)

/-- Counterexample for C2: a modulus exactly at `2^259` is rejected by the
precondition of `multiply`, `inverse` and `divide`, not accepted. -/
theorem modulus_ceiling_cex :
    multiply (ffFrom 1) (ffFrom 1) (2 ^ 259) = .error "Foreign modulus fits in 259 bits"
  ∧ inverse (ffFrom 1) (2 ^ 259) = .error "Foreign modulus fits in 259 bits"
  ∧ divide (ffFrom 1) (ffFrom 1) (2 ^ 259) false = .error "Foreign modulus fits in 259 bits"
  ∧ divide (ffFrom 1) (ffFrom 1) (2 ^ 259) true = .error "Foreign modulus fits in 259 bits" := by
  have h : ¬ ((2 : Int) ^ 259 < 2 ^ 259) := by norm_num
  exact ⟨by simp only [multiply, if_neg h], by simp only [inverse, if_neg h],
    by simp only [divide, if_neg h], by simp only [divide, if_neg h]⟩

/-- C2 (amended): `multiply`, `inverse` and `divide` accept every modulus
`f < 2^259` (so the largest accepted modulus is `2^259 - 1`) and reject every
`f ≥ 2^259` by failing immediately, producing no witness or constraint (an
error result carries no event trace). -/
theorem modulus_ceiling_spec (f : Int) (hf0 : 0 < f) (hf1 : f < 2 ^ 259)
    (g : Int) (hg : 2 ^ 259 ≤ g) (a b : Field3) (flag : Bool) :
    (∃ r, multiply (ffFrom 1) (ffFrom 1) f = .ok (r, []))
  ∧ (∃ r, inverse (ffFrom 1) f = .ok (r, []))
  ∧ (∃ r, divide (ffFrom 1) (ffFrom 1) f flag = .ok (r, []))
  ∧ multiply a b g = .error "Foreign modulus fits in 259 bits"
  ∧ inverse a g = .error "Foreign modulus fits in 259 bits"
  ∧ divide a b g flag = .error "Foreign modulus fits in 259 bits" := by
  have h1 : ffToBigint (ffFrom 1) = 1 := ffToBigint_ffFrom (by norm_num) (by norm_num)
  have hgcd : modInverse (ffToBigint (ffFrom 1)) f = some (Nat.gcdA (1 % f).toNat f.toNat % f) := by
    rw [h1]
    simp [modInverse, Int.gcd]
  have hng : ¬ (g < 2 ^ 259) := by omega
  refine ⟨?_, ?_, ?_, ?_, ?_, ?_⟩
  · refine ⟨ffFrom (mod' (ffToBigint (ffFrom 1) * ffToBigint (ffFrom 1)) f), ?_⟩
    simp only [multiply, if_pos hf1, show (isConst3 (ffFrom 1) && isConst3 (ffFrom 1)) = true from rfl, if_true]
  · refine ⟨ffFrom (Nat.gcdA (1 % f).toNat f.toNat % f), ?_⟩
    simp only [inverse, if_pos hf1, show isConst3 (ffFrom 1) = true from rfl, if_true, hgcd]
  · refine ⟨ffFrom (mod' (ffToBigint (ffFrom 1) * (Nat.gcdA (1 % f).toNat f.toNat % f)) f), ?_⟩
    simp only [divide, if_pos hf1, show (isConst3 (ffFrom 1) && isConst3 (ffFrom 1)) = true from rfl, if_true, hgcd]
  · simp only [multiply, if_neg hng]
  · simp only [inverse, if_neg hng]
  · simp only [divide, if_neg hng]

/-- Witness for C2 (amended) at the maximal accepted modulus `f = 2^259 - 1`
and the rejected `g = 2^259`. -/
theorem modulus_ceiling_spec_w :
    (∃ r, multiply (ffFrom 1) (ffFrom 1) (2 ^ 259 - 1) = .ok (r, []))
  ∧ (∃ r, inverse (ffFrom 1) (2 ^ 259 - 1) = .ok (r, []))
  ∧ (∃ r, divide (ffFrom 1) (ffFrom 1) (2 ^ 259 - 1) true = .ok (r, []))
  ∧ multiply (mkVar3 (1, 0, 0)) (mkVar3 (1, 0, 0)) (2 ^ 259)
      = .error "Foreign modulus fits in 259 bits"
  ∧ inverse (mkVar3 (1, 0, 0)) (2 ^ 259) = .error "Foreign modulus fits in 259 bits"
  ∧ divide (mkVar3 (1, 0, 0)) (mkVar3 (1, 0, 0)) (2 ^ 259) true
      = .error "Foreign modulus fits in 259 bits" :=
  modulus_ceiling_spec (2 ^ 259 - 1) (by norm_num) (by norm_num) (2 ^ 259)
    (by norm_num) (mkVar3 (1, 0, 0)) (mkVar3 (1, 0, 0)) true

/-- C10: on fully constant operands, `divide` fails immediately with the
"inverse exists" assertion whenever `y` is not invertible modulo `f`
(equivalently `gcd(y, f) ≠ 1`), for either value of `allowZeroOverZero`;
the flag has no effect on the constant path at all. -/
theorem divide_const_flag_spec (x y : Field3) (f : Int) (flag : Bool)
    (hx : isConst3 x = true) (hy : isConst3 y = true) (hf : f < 2 ^ 259) :
    (modInverse (ffToBigint y) f = none ↔ Int.gcd (ffToBigint y) f ≠ 1)
  ∧ (modInverse (ffToBigint y) f = none →
      divide x y f flag = .error "inverse exists")
  ∧ divide x y f flag = divide x y f false := by
  have hcc : (isConst3 x && isConst3 y) = true := by rw [hx, hy]; rfl
  refine ⟨?_, ?_, ?_⟩
  · unfold modInverse
    split_ifs with h <;> simp [h]
  · intro hnone
    simp only [divide, if_pos hf, hcc, if_true, hnone]
  · simp only [divide, if_pos hf, hcc, if_true]

/-- C9: on the provable path, `divide` with `allowZeroOverZero = false` emits
exactly two extra boolean assertions after the trace of the
`allowZeroOverZero = true` run: that the pair `(y0 + y1*2^L, y2)` is not
`(0, 0)` and not `(f mod 2^L2, f >> L2)`; with the flag set, no boolean
assertion is emitted at all. -/
theorem divide_zero_check_spec (x y : Field3) (f : Int)
    (hc : (isConst3 x && isConst3 y) = false)
    (hf0 : 0 ≤ f) (hf1 : f < 2 ^ 259)
    (hy00 : 0 ≤ y.1.value) (hy01 : y.1.value < 2 ^ 88)
    (hy10 : 0 ≤ y.2.1.value) (hy11 : y.2.1.value < 2 ^ 88) :
    divide x y f true = .ok (divideProvable x y f true)
  ∧ divide x y f false = .ok (divideProvable x y f false)
  ∧ (divideProvable x y f false).1 = (divideProvable x y f true).1
  ∧ (divideProvable x y f false).2 = (divideProvable x y f true).2
      ++ [Event.assertBoolFalse
            (decide (y.1.value + y.2.1.value * 2 ^ 88 = 0 ∧ y.2.2.value = 0)),
          Event.assertBoolFalse
            (decide (y.1.value + y.2.1.value * 2 ^ 88 = mod' f (2 ^ 176)
              ∧ y.2.2.value = shr f 176))]
  ∧ (∀ b, Event.assertBoolFalse b ∉ (divideProvable x y f true).2) := by
  have hy01v : (y.1.add (y.2.1.mulc (2 ^ 88))).value = y.1.value + y.2.1.value * 2 ^ 88 := by
    simp only [FieldVal.add, FieldVal.mulc, pNative]
    omega
  have hcol : collapse2 (split f).1 (split f).2.1 = mod' f (2 ^ 176) := by
    simp only [collapse2, split, bandMask, shr_eq, mod']
    omega
  have hcolm : mod' f (2 ^ 176) % pNative = mod' f (2 ^ 176) := by
    simp only [mod', pNative]
    omega
  have hf2 : (split f).2.2 = shr f 176 := by
    simp only [split, bandMask, shr_eq]
    omega
  have hf2m : shr f 176 % pNative = shr f 176 := by
    simp only [shr_eq, pNative]
    omega
  have he1 : ((y.1.add (y.2.1.mulc (2 ^ 88))).equalsConst 0 && y.2.2.equalsConst 0)
      = decide (y.1.value + y.2.1.value * 2 ^ 88 = 0 ∧ y.2.2.value = 0) := by
    simp only [FieldVal.equalsConst, hy01v, Int.zero_emod, Bool.decide_and]
    rw [Bool.eq_iff_iff]
    simp
  have he2 : ((y.1.add (y.2.1.mulc (2 ^ 88))).equalsConst (collapse2 (split f).1 (split f).2.1)
        && y.2.2.equalsConst (split f).2.2)
      = decide (y.1.value + y.2.1.value * 2 ^ 88 = mod' f (2 ^ 176)
          ∧ y.2.2.value = shr f 176) := by
    rw [hcol, hf2]
    simp only [FieldVal.equalsConst, hy01v, hcolm, hf2m, Bool.decide_and]
    rw [Bool.eq_iff_iff]
    simp
  refine ⟨?_, ?_, ?_, ?_, ?_⟩
  · simp only [divide, if_pos hf1, hc, Bool.false_eq_true, if_false]
  · simp only [divide, if_pos hf1, hc, Bool.false_eq_true, if_false]
  · simp only [divideProvable]
  · simp only [divideProvable, Bool.false_eq_true, if_true, if_false,
      List.append_nil, he1, he2, List.append_assoc]
  · intro b
    simp [divideProvable, multiRangeCheck, multiplyNoRangeCheck]

/-- Witness for C9 at `x = (3,0,0)`, `y = (4,0,0)` (variables), `f = 5`. -/
theorem divide_zero_check_spec_w :
    divide (mkVar3 (3, 0, 0)) (mkVar3 (4, 0, 0)) 5 true
      = .ok (divideProvable (mkVar3 (3, 0, 0)) (mkVar3 (4, 0, 0)) 5 true) :=
  (divide_zero_check_spec (mkVar3 (3, 0, 0)) (mkVar3 (4, 0, 0)) 5 (by decide)
    (by norm_num) (by norm_num) (by decide) (by decide) (by decide) (by decide)).1

lemma one_emod_pNative : (1 : Int) % pNative = 1 := by norm_num [pNative]

lemma bigint3Of_mkVar3 (v : bigint3)
    (h0 : 0 ≤ v.1) (h1 : v.1 < 2 ^ 88) (h2 : 0 ≤ v.2.1) (h3 : v.2.1 < 2 ^ 88)
    (h4 : 0 ≤ v.2.2) (h5 : v.2.2 < 2 ^ 88) :
    bigint3Of (mkVar3 v) = v := by
  simp only [bigint3Of, mkVar3, mkVar]
  rw [emod_pNative_eq h0 (by omega), emod_pNative_eq h2 (by omega),
    emod_pNative_eq h4 (by omega)]

lemma inverseWitness_small (x : Field3) (f : Int) :
    0 ≤ (inverseWitness x f).1 ∧ (inverseWitness x f).1 < 2 ^ 88
  ∧ 0 ≤ (inverseWitness x f).2.1 ∧ (inverseWitness x f).2.1 < 2 ^ 88
  ∧ 0 ≤ (inverseWitness x f).2.2 ∧ (inverseWitness x f).2.2 < 2 ^ 88 := by
  unfold inverseWitness
  cases h : modInverse (ffToBigint x) f with
  | none => norm_num
  | some i => exact split_bounds i

lemma mulWitness_r_range (a b : bigint3) (f : Int) :
    0 ≤ (mulWitness a b f).r01 ∧ (mulWitness a b f).r01 < 2 ^ 176
  ∧ 0 ≤ (mulWitness a b f).r2 ∧ (mulWitness a b f).r2 < 2 ^ 88 := by
  simp only [mulWitness, split, collapse2, bandMask, shr_eq]
  refine ⟨?_, ?_, ?_, ?_⟩ <;> omega

lemma mulWitness_zero_right (a : bigint3) (f : Int) :
    (mulWitness a (0, 0, 0) f).r01 = 0 := by
  simp [mulWitness, collapse, collapse2, split, bandMask, shr, Int.zero_fdiv]

/-- C8: on fully constant `x`, `inverse` fails immediately with the
"inverse exists" error exactly when `gcd(x, f) ≠ 1`; on variable `x` it
never fails synchronously: it witnesses the true modular inverse when one
exists and the all-zero triple otherwise, and asserts the multiplication
core remainder equals exactly one (`r01 = 1`, `r2 = 0`), so when no inverse
exists the trace contains an equality assertion between two distinct
values — an unsatisfiable constraint. -/
theorem inverse_spec (x : Field3) (f : Int) (hf0 : 0 < f) (hf1 : f < 2 ^ 259) :
    (isConst3 x = true →
      (inverse x f = .error "inverse exists" ↔ Int.gcd (ffToBigint x) f ≠ 1))
  ∧ (isConst3 x = false →
      inverse x f = .ok (inverseProvable x f)
      ∧ bigint3Of (inverseProvable x f).1
          = (match modInverse (ffToBigint x) f with
             | some i => split i
             | none => ((0 : Int), 0, 0))
      ∧ Event.assertEq ((mulWitness (bigint3Of x) (inverseWitness x f) f).r01) 1
          ∈ (inverseProvable x f).2
      ∧ Event.assertEq ((mulWitness (bigint3Of x) (inverseWitness x f) f).r2) 0
          ∈ (inverseProvable x f).2
      ∧ (Int.gcd (ffToBigint x) f ≠ 1 →
          ∃ a b : Int, Event.assertEq a b ∈ (inverseProvable x f).2 ∧ a ≠ b)) := by
  have hsm := inverseWitness_small x f
  have hb3 : bigint3Of (mkVar3 (inverseWitness x f)) = inverseWitness x f :=
    bigint3Of_mkVar3 _ hsm.1 hsm.2.1 hsm.2.2.1 hsm.2.2.2.1 hsm.2.2.2.2.1 hsm.2.2.2.2.2
  have hrr := mulWitness_r_range (bigint3Of x) (inverseWitness x f) f
  have hr01m : (mulWitness (bigint3Of x) (inverseWitness x f) f).r01 % pNative
      = (mulWitness (bigint3Of x) (inverseWitness x f) f).r01 :=
    emod_pNative_eq hrr.1 (by omega)
  have hr2m : (mulWitness (bigint3Of x) (inverseWitness x f) f).r2 % pNative
      = (mulWitness (bigint3Of x) (inverseWitness x f) f).r2 :=
    emod_pNative_eq hrr.2.2.1 (by omega)
  constructor
  · intro hx
    simp only [inverse, if_pos hf1, hx, if_true]
    cases h : modInverse (ffToBigint x) f with
    | none =>
      simp only [modInverse] at h
      constructor
      · intro _
        intro hg
        rw [if_pos hg] at h
        exact Option.noConfusion h
      · intro _
        rfl
    | some i =>
      simp only [modInverse] at h
      constructor
      · intro hbad
        exact Except.noConfusion hbad
      · intro hg
        rw [if_neg hg] at h
        exact absurd h (Option.noConfusion)
  · intro hx
    have hrun : inverse x f = .ok (inverseProvable x f) := by
      simp only [inverse, if_pos hf1, hx, Bool.false_eq_true, if_false]
    refine ⟨hrun, ?_, ?_, ?_, ?_⟩
    · simp only [inverseProvable, hb3]
      unfold inverseWitness
      cases h : modInverse (ffToBigint x) f <;> simp [h]
    · simp only [inverseProvable, multiplyNoRangeCheck, multiRangeCheck, hb3,
        hr01m, one_emod_pNative, mkVar, List.mem_append, List.mem_cons]
      simp
    · simp only [inverseProvable, multiplyNoRangeCheck, multiRangeCheck, hb3,
        hr2m, Int.zero_emod, mkVar, List.mem_append, List.mem_cons]
      simp
    · intro hg
      have hnone : modInverse (ffToBigint x) f = none := by
        simp only [modInverse, if_neg hg]
      have hw : inverseWitness x f = ((0 : Int), 0, 0) := by
        simp only [inverseWitness, hnone]
      refine ⟨0, 1, ?_, by norm_num⟩
      have hz : (mulWitness (bigint3Of x) (inverseWitness x f) f).r01 = 0 := by
        rw [hw]
        exact mulWitness_zero_right _ _
      simp only [inverseProvable, multiplyNoRangeCheck, multiRangeCheck, hb3,
        hr01m, hz, one_emod_pNative, mkVar, List.mem_append, List.mem_cons]
      simp [hz.symm ▸ hr01m]

/-- Witness for C8 at the non-invertible `x = (2,0,0)` (variable), `f = 4`. -/
theorem inverse_spec_w :
    inverse (mkVar3 (2, 0, 0)) 4 = .ok (inverseProvable (mkVar3 (2, 0, 0)) 4) :=
  (((inverse_spec (mkVar3 (2, 0, 0)) 4 (by norm_num) (by norm_num)).2) (by decide)).1

lemma emod_sub_self (v f : Int) : (v - f) % f = v % f := by
  have h := Int.add_mul_emod_self_left (a := v) (b := f) (c := -1)
  simpa using h

lemma emod_add_self (v f : Int) : (v + f) % f = v % f := by
  have h := Int.add_mul_emod_self_left (a := v) (b := f) (c := 1)
  simpa using h

/-- All three limbs of a limb triple are in `[0, 2^L)`. -/
def limbsOk (v : bigint3) : Prop :=
  0 ≤ v.1 ∧ v.1 < 2 ^ 88 ∧ 0 ≤ v.2.1 ∧ v.2.1 < 2 ^ 88 ∧ 0 ≤ v.2.2 ∧ v.2.2 < 2 ^ 88

instance (v : bigint3) : Decidable (limbsOk v) := by
  unfold limbsOk
  infer_instance

/-- The limb triple witnessed by a single signed addition step is the limb
split of `(x + sign*y) mod f`, whenever both operand values are reduced
modulo `f`. -/
lemma singleAddWitness_split (x y : bigint3) (s f : Int) (hs : s = 1 ∨ s = -1)
    (hf0 : 0 < f) (hf1 : f < 2 ^ 264)
    (hx0 : 0 ≤ collapse x) (hx1 : collapse x < f)
    (hy0 : 0 ≤ collapse y) (hy1 : collapse y < f) :
    ((singleAddWitness x y s f).1, (singleAddWitness x y s f).2.1,
      (singleAddWitness x y s f).2.2.1)
      = split ((collapse x + s * collapse y) % f) := by
  have c3 : ¬ (f = 0) := by omega
  rcases hs with rfl | rfl
  · have c2 : ¬ ((1 : Int) = -1 ∧ collapse x + 1 * collapse y < 0) := by norm_num
    rcases le_or_lt f (collapse x + 1 * collapse y) with hge | hlt
    · have hV : (collapse x + 1 * collapse y) % f = collapse x + 1 * collapse y - f := by
        rw [← emod_sub_self (collapse x + 1 * collapse y) f,
          Int.emod_eq_of_lt (by omega) (by omega)]
      rw [hV]
      simp only [singleAddWitness, ge_iff_le, true_and, if_neg c3, if_neg c2, if_pos hge]
      simp only [collapse] at hge hx0 hx1 hy0 hy1
      simp only [collapse, collapse2, split, split2, bandMask, shr_eq, Prod.mk.injEq]
      refine ⟨?_, ?_, ?_⟩ <;> omega
    · have hV : (collapse x + 1 * collapse y) % f = collapse x + 1 * collapse y :=
        Int.emod_eq_of_lt (by omega) (by omega)
      have hnge : ¬ (f ≤ collapse x + 1 * collapse y) := by omega
      rw [hV]
      simp only [singleAddWitness, ge_iff_le, true_and, if_neg c3, if_neg c2, if_neg hnge]
      simp only [collapse] at hlt hx0 hx1 hy0 hy1
      simp only [collapse, collapse2, split, split2, bandMask, shr_eq, Prod.mk.injEq]
      refine ⟨?_, ?_, ?_⟩ <;> omega
  · have c1 : ¬ ((-1 : Int) = 1 ∧ f ≤ collapse x + -1 * collapse y) := by norm_num
    rcases lt_or_le (collapse x + -1 * collapse y) 0 with hneg | hpos
    · have hV : (collapse x + -1 * collapse y) % f
          = collapse x + -1 * collapse y + f := by
        rw [← emod_add_self (collapse x + -1 * collapse y) f,
          Int.emod_eq_of_lt (by omega) (by omega)]
      rw [hV]
      simp only [singleAddWitness, ge_iff_le, true_and, if_neg c3, if_neg c1, if_pos hneg]
      simp only [collapse] at hneg hx0 hx1 hy0 hy1
      simp only [collapse, collapse2, split, split2, bandMask, shr_eq, Prod.mk.injEq]
      refine ⟨?_, ?_, ?_⟩ <;> omega
    · have hV : (collapse x + -1 * collapse y) % f = collapse x + -1 * collapse y :=
        Int.emod_eq_of_lt (by omega) (by omega)
      have hnneg : ¬ (collapse x + -1 * collapse y < 0) := by omega
      rw [hV]
      simp only [singleAddWitness, ge_iff_le, true_and, if_neg c3, if_neg c1, if_neg hnneg]
      simp only [collapse] at hpos hx0 hx1 hy0 hy1
      simp only [collapse, collapse2, split, split2, bandMask, shr_eq, Prod.mk.injEq]
      refine ⟨?_, ?_, ?_⟩ <;> omega

lemma ffToBigint_field3Const (v : bigint3) (h : limbsOk v) :
    ffToBigint (field3Const v) = collapse v := by
  obtain ⟨h0, h1, h2, h3, h4, h5⟩ := h
  simp only [ffToBigint, field3Const, bigint3Of, FieldVal.ofBigint]
  rw [emod_pNative_eq h0 (by omega), emod_pNative_eq h2 (by omega),
    emod_pNative_eq h4 (by omega)]

lemma bigint3Of_ffFrom (v : Int) : bigint3Of (ffFrom v) = split v := by
  have hb := split_bounds v
  simp only [bigint3Of, ffFrom, FieldVal.ofBigint]
  rw [emod_pNative_eq hb.1 (by omega), emod_pNative_eq hb.2.2.1 (by omega),
    emod_pNative_eq hb.2.2.2.2.1 (by omega)]

lemma singleAdd_result (X Y : Field3) (s f : Int) (hs : s = 1 ∨ s = -1)
    (hf0 : 0 < f) (hf1 : f < 2 ^ 264)
    (hx0 : 0 ≤ collapse (bigint3Of X)) (hx1 : collapse (bigint3Of X) < f)
    (hy0 : 0 ≤ collapse (bigint3Of Y)) (hy1 : collapse (bigint3Of Y) < f) :
    bigint3Of ((singleAdd X Y s f).1.1)
      = split ((collapse (bigint3Of X) + s * collapse (bigint3Of Y)) % f) := by
  have h := singleAddWitness_split (bigint3Of X) (bigint3Of Y) s f hs hf0 hf1
    hx0 hx1 hy0 hy1
  have hbnd := split_bounds ((collapse (bigint3Of X) + s * collapse (bigint3Of Y)) % f)
  have e1 := congrArg Prod.fst h
  have e2 := congrArg (fun t : bigint3 => t.2.1) h
  have e3 := congrArg (fun t : bigint3 => t.2.2) h
  simp only at e1 e2 e3
  have lhs_eq : bigint3Of ((singleAdd X Y s f).1.1)
      = ((singleAddWitness (bigint3Of X) (bigint3Of Y) s f).1 % pNative,
         (singleAddWitness (bigint3Of X) (bigint3Of Y) s f).2.1 % pNative,
         (singleAddWitness (bigint3Of X) (bigint3Of Y) s f).2.2.1 % pNative) := rfl
  rw [lhs_eq, e1, e2, e3, emod_pNative_eq hbnd.1 (by omega),
    emod_pNative_eq hbnd.2.2.1 (by omega), emod_pNative_eq hbnd.2.2.2.2.1 (by omega)]

/-- Counterexample for C6: with an unreduced operand (value `12`, modulus
`f = 5`, well within the range-checked limb bounds), the circuit-variable
path of `sumChain` decodes to `7` while the constant path decodes to
`(12 + 0 - 0) mod 5 = 2`: the two operand kinds disagree and the variable
result is not the sum reduced modulo `f`. -/
theorem sumChain_agree_cex :
    decodeOk (sumChain [mkVar3 (12, 0, 0), mkVar3 (0, 0, 0), mkVar3 (0, 0, 0)] [1, -1] 5)
      = some 7
  ∧ decodeOk (sumChain [field3Const (12, 0, 0), field3Const (0, 0, 0),
      field3Const (0, 0, 0)] [1, -1] 5) = some 2
  ∧ mod' (12 + 0 - 0) 5 = 2
  ∧ (7 : Int) ≠ 2 := by
  refine ⟨by decide, by decide, by decide, by decide⟩

/-- C6 (amended): for operands whose values are reduced modulo `f` (limbs
range-checked, value `< f`) and `0 < f < 2^264`,
`sumChain [a, b, c] [+1, -1] f` decodes to `(a + b - c) mod f` for both the
constant and the circuit-variable operand kinds, and the two kinds produce
bit-for-bit identical limb triples; the constant case returns
`operands[0] + Σ sign[i]·operands[i+1] mod f`, limb-split. -/
theorem sumChain_agree (a b c : bigint3) (f : Int)
    (ha : limbsOk a) (hb : limbsOk b) (hc : limbsOk c)
    (hca : collapse a < f) (hcb : collapse b < f) (hcc : collapse c < f)
    (hf0 : 0 < f) (hf1 : f < 2 ^ 264) :
    sumChain [field3Const a, field3Const b, field3Const c] [1, -1] f
      = .ok (ffFrom (mod' (collapse a + collapse b - collapse c) f), [])
  ∧ decodeOk (sumChain [mkVar3 a, mkVar3 b, mkVar3 c] [1, -1] f)
      = some (mod' (collapse a + collapse b - collapse c) f)
  ∧ decodeOk (sumChain [field3Const a, field3Const b, field3Const c] [1, -1] f)
      = some (mod' (collapse a + collapse b - collapse c) f)
  ∧ (∀ r evs, sumChain [mkVar3 a, mkVar3 b, mkVar3 c] [1, -1] f = .ok (r, evs) →
      bigint3Of r = bigint3Of (ffFrom (mod' (collapse a + collapse b - collapse c) f))) := by
  obtain ⟨ha1, ha2, ha3, ha4, ha5, ha6⟩ := ha
  obtain ⟨hb1, hb2, hb3, hb4, hb5, hb6⟩ := hb
  obtain ⟨hc1, hc2, hc3, hc4, hc5, hc6⟩ := hc
  have ha0 : 0 ≤ collapse a := by simp only [collapse]; omega
  have hb0 : 0 ≤ collapse b := by simp only [collapse]; omega
  have hc0 : 0 ≤ collapse c := by simp only [collapse]; omega
  have hA : bigint3Of (mkVar3 a) = a := bigint3Of_mkVar3 a ha1 ha2 ha3 ha4 ha5 ha6
  have hB : bigint3Of (mkVar3 b) = b := bigint3Of_mkVar3 b hb1 hb2 hb3 hb4 hb5 hb6
  have hC : bigint3Of (mkVar3 c) = c := bigint3Of_mkVar3 c hc1 hc2 hc3 hc4 hc5 hc6
  have hV1b : 0 ≤ (collapse a + 1 * collapse b) % f
      ∧ (collapse a + 1 * collapse b) % f < f :=
    ⟨Int.emod_nonneg _ (by omega), Int.emod_lt_of_pos _ hf0⟩
  have step1 : bigint3Of ((singleAdd (mkVar3 a) (mkVar3 b) 1 f).1.1)
      = split ((collapse a + 1 * collapse b) % f) := by
    have h := singleAdd_result (mkVar3 a) (mkVar3 b) 1 f (Or.inl rfl) hf0 hf1
      (by rw [hA]; exact ha0) (by rw [hA]; exact hca)
      (by rw [hB]; exact hb0) (by rw [hB]; exact hcb)
    rw [hA, hB] at h
    exact h
  have hcol1 : collapse (bigint3Of ((singleAdd (mkVar3 a) (mkVar3 b) 1 f).1.1))
      = (collapse a + 1 * collapse b) % f := by
    rw [step1]
    exact collapse_split_eq hV1b.1 (by omega)
  have step2 : bigint3Of ((singleAdd ((singleAdd (mkVar3 a) (mkVar3 b) 1 f).1.1)
        (mkVar3 c) (-1) f).1.1)
      = split ((((collapse a + 1 * collapse b) % f) + -1 * collapse c) % f) := by
    have h := singleAdd_result ((singleAdd (mkVar3 a) (mkVar3 b) 1 f).1.1)
      (mkVar3 c) (-1) f (Or.inr rfl) hf0 hf1
      (by rw [hcol1]; exact hV1b.1) (by rw [hcol1]; exact hV1b.2)
      (by rw [hC]; exact hc0) (by rw [hC]; exact hcc)
    rw [hC, hcol1] at h
    exact h
  have hVV : (((collapse a + 1 * collapse b) % f) + -1 * collapse c) % f
      = (collapse a + collapse b - collapse c) % f := by
    have h1 : ((collapse a + 1 * collapse b) % f) + -1 * collapse c
        = ((collapse a + collapse b) % f) - collapse c := by ring_nf
    rw [h1, Int.sub_emod ((collapse a + collapse b) % f) (collapse c) f,
      Int.emod_emod_of_dvd _ dvd_rfl, ← Int.sub_emod]
  have hVVb : 0 ≤ (collapse a + collapse b - collapse c) % f
      ∧ (collapse a + collapse b - collapse c) % f < f :=
    ⟨Int.emod_nonneg _ (by omega), Int.emod_lt_of_pos _ hf0⟩
  have hvar : ∃ evs, sumChain [mkVar3 a, mkVar3 b, mkVar3 c] [1, -1] f
      = .ok ((singleAdd ((singleAdd (mkVar3 a) (mkVar3 b) 1 f).1.1)
          (mkVar3 c) (-1) f).1.1, evs) := ⟨_, rfl⟩
  have hconst : sumChain [field3Const a, field3Const b, field3Const c] [1, -1] f
      = .ok (ffFrom (mod' (ffToBigint (field3Const a) + 1 * ffToBigint (field3Const b)
          + -1 * ffToBigint (field3Const c)) f), []) := rfl
  have hsum : ffToBigint (field3Const a) + 1 * ffToBigint (field3Const b)
      + -1 * ffToBigint (field3Const c) = collapse a + collapse b - collapse c := by
    rw [ffToBigint_field3Const a ⟨ha1, ha2, ha3, ha4, ha5, ha6⟩,
      ffToBigint_field3Const b ⟨hb1, hb2, hb3, hb4, hb5, hb6⟩,
      ffToBigint_field3Const c ⟨hc1, hc2, hc3, hc4, hc5, hc6⟩]
    ring
  have hfirst : sumChain [field3Const a, field3Const b, field3Const c] [1, -1] f
      = .ok (ffFrom (mod' (collapse a + collapse b - collapse c) f), []) := by
    rw [hconst, hsum]
  obtain ⟨evs2, hvar⟩ := hvar
  have hR2 : bigint3Of ((singleAdd ((singleAdd (mkVar3 a) (mkVar3 b) 1 f).1.1)
        (mkVar3 c) (-1) f).1.1)
      = split ((collapse a + collapse b - collapse c) % f) := by
    rw [step2, hVV]
  refine ⟨hfirst, ?_, ?_, ?_⟩
  · rw [hvar]
    simp only [decodeOk, Option.some.injEq, ffToBigint]
    rw [hR2, collapse_split_eq hVVb.1 (by omega)]
    rfl
  · rw [hfirst]
    simp only [decodeOk, Option.some.injEq, ffToBigint, bigint3Of_ffFrom, mod']
    exact collapse_split_eq hVVb.1 (by omega)
  · intro r evs h
    have h2 := hvar.symm.trans h
    rw [Except.ok.injEq, Prod.mk.injEq] at h2
    rw [← h2.1, hR2, bigint3Of_ffFrom]
    rfl

/-- Witness for C6 (amended) at `a = 3`, `b = 4`, `c = 2`, `f = 5`. -/
theorem sumChain_agree_w :
    decodeOk (sumChain [mkVar3 (3, 0, 0), mkVar3 (4, 0, 0), mkVar3 (2, 0, 0)] [1, -1] 5)
      = some (mod' (collapse (3, 0, 0) + collapse (4, 0, 0) - collapse (2, 0, 0)) 5) :=
  (sumChain_agree (3, 0, 0) (4, 0, 0) (2, 0, 0) 5 (by decide) (by decide) (by decide)
    (by decide) (by decide) (by decide) (by decide) (by decide)).2.1

/-- Witness for C10 at constant `x = 3`, `y = 2`, `f = 4`,
`allowZeroOverZero = true`. -/
theorem divide_const_flag_spec_w :
    divide (ffFrom 3) (ffFrom 2) 4 true = .error "inverse exists" :=
  (divide_const_flag_spec (ffFrom 3) (ffFrom 2) 4 true rfl rfl (by norm_num)).2.1
    (by decide)
